import Mathlib

/-
Verification of the cluster shared-memory coordinator (class Manager) and its
worker proxy.  The Manager owns a primary key/value store, a per-key lock table
with FIFO waiter queues, a per-key listener registry, and a bounded LRU cache.
Workers talk to it over a message channel; Manager.handle dispatches each
request record to the method named by its `method` field.

Modelling conventions:
  - JavaScript values carried by the protocol are modelled by `JsValue`
    (undefined, null, booleans, integers, strings); JS truthiness is `truthy`.
  - Keys are strings; the only falsy string key is the empty string.
  - JS objects used as maps are modelled as total functions `String -> _`
    (reading an absent property yields `undefined`, i.e. the default).
  - uuid4 lock tokens are modelled by a fresh-counter mint (`next`): each grant
    hands out the current counter value and increments it.  Token freshness and
    uniqueness of uuid4 are thereby represented exactly.
  - Listener callbacks and lock-waiter callbacks are identified by numeric ids;
    invoking a callback is modelled as appending an event to a trace
    (`notes` for listener deliveries, `events` for lock-table events).
  - The coordinator is single threaded: every method body runs atomically, so
    the synchronous JS code of each method is translated directly into a pure
    state transformer.
-/

/-- Claim-independent model of a JavaScript value as carried by the protocol. -/
inductive JsValue where
  | undefined
  | null
  | bool (b : Bool)
  | num (n : Int)
  | str (s : String)
  deriving DecidableEq, Repr

/-- JS truthiness for the modelled values (NaN is not representable here;
undefined, null, false, 0 and the empty string are falsy). -/
def truthy : JsValue → Bool
  | JsValue.undefined => false
  | JsValue.null => false
  | JsValue.bool b => b
  | JsValue.num n => n != 0
  | JsValue.str s => s != ""

/-- Pointwise update of an object-as-map, `obj[k] = v`. -/
def memSet (m : String → JsValue) (k : String) (v : JsValue) : String → JsValue :=
  fun k2 => if k2 = k then v else m k2

/--
State of `__sharedMemory__` relevant to the store and the listener registry:
`memory` is the key/value store (absent keys read as undefined, which also
models `delete`), `listeners` maps a key to the registered listener ids in
registration order, and `notes` is the trace of listener invocations:
`(l, v)` means listener `l` was called with value `v`.
-/
structure StoreState where
  memory : String → JsValue
  listeners : String → List Nat
  notes : List (Nat × JsValue)

def initStore : StoreState :=
  { memory := fun _ => JsValue.undefined, listeners := fun _ => [], notes := [] }

/--
Manager.notifyListener(k): calls every callback registered for `k`, in
registration order, with the value currently stored under `k` (the read
`__sharedMemory__.get(k)` happens after the mutation that triggered the
notification).  The `length > 0` guard of the source is observationally
the identity on an empty list.
-/
def notifyListener (s : StoreState) (k : String) : StoreState :=
  { s with notes := s.notes ++ (s.listeners k).map (fun l => (l, s.memory k)) }

/--
Promise path of Manager.set(k, v): guarded by JS truthiness of the key
(`if (k)`), so a falsy (empty) key is a silent no-op; otherwise stores `v`
and then notifies the listeners of `k`.
-/
def setP (s : StoreState) (k : String) (v : JsValue) : StoreState :=
  if k = "" then s
  else notifyListener { s with memory := memSet s.memory k v } k

/--
Promise path of Manager.remove(k): deletes the key (reading it afterwards
yields undefined) and then notifies the listeners of `k`.  No key guard.
-/
def removeP (s : StoreState) (k : String) : StoreState :=
  notifyListener { s with memory := memSet s.memory k JsValue.undefined } k

/-- Manager.listen(k, cb): appends the callback to the listener list of `k`. -/
def listenAdd (s : StoreState) (k : String) (l : Nat) : StoreState :=
  { s with listeners := fun k2 =>
      if k2 = k then s.listeners k2 ++ [l] else s.listeners k2 }

/--
Callback path of Manager.set(k, v, cb): the callback branch stores and
notifies, and since it does not return, the promise branch then stores and
notifies a second time within the same call.
-/
def setCb (s : StoreState) (k : String) (v : JsValue) : StoreState :=
  if k = "" then s
  else
    let s1 := notifyListener { s with memory := memSet s.memory k v } k
    notifyListener { s1 with memory := memSet s1.memory k v } k

/--
Callback path of Manager.remove(k, cb): like `setCb`, the delete and the
notification run twice in one call (callback branch, then promise branch).
-/
def removeCb (s : StoreState) (k : String) : StoreState :=
  let s1 := notifyListener { s with memory := memSet s.memory k JsValue.undefined } k
  notifyListener { s1 with memory := memSet s1.memory k JsValue.undefined } k

/-- Operations on the store part of the Manager, as dispatched for worker
requests (promise path: Manager.handle never passes a callback). -/
inductive StoreOp where
  | setP (k : String) (v : JsValue)
  | removeP (k : String)
  | listen (k : String) (l : Nat)
  deriving DecidableEq, Repr

def stepStore (s : StoreState) (op : StoreOp) : StoreState :=
  match op with
  | StoreOp.setP k v => setP s k v
  | StoreOp.removeP k => removeP s k
  | StoreOp.listen k l => listenAdd s k l

def runStore (s : StoreState) (ops : List StoreOp) : StoreState :=
  ops.foldl stepStore s

/-- The values delivered to listener `l`, in delivery order. -/
def deliveredTo (l : Nat) (notes : List (Nat × JsValue)) : List JsValue :=
  notes.filterMap (fun p => if p.1 = l then some p.2 else none)

/-- The sequence of values a subscriber of `k` should observe from `ops`:
the value of every successful set of `k` (a set with a falsy key is a no-op)
and undefined for every remove of `k`, in operation order. -/
def valuesFor (k : String) (ops : List StoreOp) : List JsValue :=
  ops.filterMap (fun op =>
    match op with
    | StoreOp.setP k2 v => if k2 = k ∧ k2 ≠ "" then some v else none
    | StoreOp.removeP k2 => if k2 = k then some JsValue.undefined else none
    | StoreOp.listen _ _ => none)

/-- The listener ids registered by a list of operations. -/
def listenTargets (ops : List StoreOp) : List Nat :=
  ops.filterMap (fun op =>
    match op with
    | StoreOp.listen _ l => some l
    | _ => none)

section StoreLemmas

theorem deliveredTo_append (l : Nat) (n1 n2 : List (Nat × JsValue)) :
    deliveredTo l (n1 ++ n2) = deliveredTo l n1 ++ deliveredTo l n2 := by
  simp [deliveredTo]

theorem deliveredTo_map_const (ls : List Nat) (l : Nat) (v : JsValue) :
    deliveredTo l (ls.map (fun x => (x, v))) = List.replicate (ls.count l) v := by
  induction ls with
  | nil => simp [deliveredTo]
  | cons x xs ih =>
      by_cases hx : x = l
      · subst hx
        simp [deliveredTo, List.count_cons, List.replicate_succ] at ih ⊢
        simpa [deliveredTo] using ih
      · simp [deliveredTo, List.count_cons, hx, Ne.symm hx] at ih ⊢
        simpa [deliveredTo] using ih

theorem delivered_run (ops : List StoreOp) :
    ∀ (s : StoreState) (k : String) (l : Nat),
      (s.listeners k).count l = 1 →
      (∀ k2, k2 ≠ k → (s.listeners k2).count l = 0) →
      l ∉ listenTargets ops →
      deliveredTo l (runStore s ops).notes = deliveredTo l s.notes ++ valuesFor k ops := by
  induction ops with
  | nil => intro s k l _ _ _; simp [runStore, valuesFor]
  | cons op rest ih =>
      intro s k l hcount hzero hl
      cases op with
      | setP k2 v =>
          by_cases hk2 : k2 = ""
          · subst hk2
            have := ih (setP s "" v) k l (by simpa [setP] using hcount)
              (by simpa [setP] using hzero)
              (by simpa [listenTargets] using hl)
            simpa [runStore, stepStore, setP, valuesFor, List.foldl_cons] using this
          · have hstep : stepStore s (StoreOp.setP k2 v) =
                notifyListener { s with memory := memSet s.memory k2 v } k2 := by
              simp [stepStore, setP, hk2]
            set s1 := notifyListener { s with memory := memSet s.memory k2 v } k2 with hs1
            have hlist : s1.listeners = s.listeners := by simp [hs1, notifyListener]
            have hnotes : s1.notes =
                s.notes ++ (s.listeners k2).map (fun x => (x, v)) := by
              simp [hs1, notifyListener, memSet]
            have hrest := ih s1 k l (by rw [hlist]; exact hcount)
              (by intro k3 h3; rw [hlist]; exact hzero k3 h3)
              (by simpa [listenTargets] using hl)
            simp only [runStore, List.foldl_cons] at hrest ⊢
            rw [hstep, hrest, hnotes, deliveredTo_append, deliveredTo_map_const]
            by_cases hkk : k2 = k
            · subst hkk
              rw [hcount]
              simp [valuesFor, hk2]
            · rw [hzero k2 hkk]
              simp [valuesFor, hkk]
      | removeP k2 =>
          have hstep : stepStore s (StoreOp.removeP k2) =
              notifyListener { s with memory := memSet s.memory k2 JsValue.undefined } k2 := by
            simp [stepStore, removeP]
          set s1 := notifyListener
            { s with memory := memSet s.memory k2 JsValue.undefined } k2 with hs1
          have hlist : s1.listeners = s.listeners := by simp [hs1, notifyListener]
          have hnotes : s1.notes =
              s.notes ++ (s.listeners k2).map (fun x => (x, JsValue.undefined)) := by
            simp [hs1, notifyListener, memSet]
          have hrest := ih s1 k l (by rw [hlist]; exact hcount)
            (by intro k3 h3; rw [hlist]; exact hzero k3 h3)
            (by simpa [listenTargets] using hl)
          simp only [runStore, List.foldl_cons] at hrest ⊢
          rw [hstep, hrest, hnotes, deliveredTo_append, deliveredTo_map_const]
          by_cases hkk : k2 = k
          · subst hkk
            rw [hcount]
            simp [valuesFor]
          · rw [hzero k2 hkk]
            simp [valuesFor, hkk]
      | listen k2 l2 =>
          have hl2 : l2 ≠ l := by
            intro h; subst h
            exact absurd (by simp [listenTargets]) hl
          set s1 := listenAdd s k2 l2 with hs1
          have hnotes : s1.notes = s.notes := by simp [hs1, listenAdd]
          have hcount1 : (s1.listeners k).count l = 1 := by
            by_cases hkk : k2 = k
            · subst hkk
              simpa [hs1, listenAdd, List.count_append, List.count_singleton', hl2]
                using hcount
            · simpa [hs1, listenAdd, Ne.symm hkk] using hcount
          have hzero1 : ∀ k3, k3 ≠ k → (s1.listeners k3).count l = 0 := by
            intro k3 h3
            by_cases hkk : k3 = k2
            · subst hkk
              simpa [hs1, listenAdd, List.count_append, List.count_singleton', hl2]
                using hzero k3 h3
            · simpa [hs1, listenAdd, hkk] using hzero k3 h3
          have hrest := ih s1 k l hcount1 hzero1 (by
            have := hl
            simp [listenTargets] at this ⊢
            exact this.2)
          rw [runStore, List.foldl_cons]
          have hstep : stepStore s (StoreOp.listen k2 l2) = s1 := by simp [stepStore, hs1]
          rw [hstep, ← runStore, hrest, hnotes]
          simp [valuesFor]

theorem delivered_run_absent (ops : List StoreOp) :
    ∀ (s : StoreState) (l : Nat),
      (∀ k2, (s.listeners k2).count l = 0) →
      l ∉ listenTargets ops →
      deliveredTo l (runStore s ops).notes = deliveredTo l s.notes := by
  induction ops with
  | nil => intro s l _ _; simp [runStore]
  | cons op rest ih =>
      intro s l hzero hl
      cases op with
      | setP k2 v =>
          by_cases hk2 : k2 = ""
          · subst hk2
            have := ih (setP s "" v) l (by simpa [setP] using hzero)
              (by simpa [listenTargets] using hl)
            simpa [runStore, stepStore, setP, List.foldl_cons] using this
          · set s1 := notifyListener { s with memory := memSet s.memory k2 v } k2 with hs1
            have hlist : s1.listeners = s.listeners := by simp [hs1, notifyListener]
            have hrest := ih s1 l (by intro k3; rw [hlist]; exact hzero k3)
              (by simpa [listenTargets] using hl)
            have hstep : stepStore s (StoreOp.setP k2 v) = s1 := by
              simp [stepStore, setP, hk2, hs1]
            rw [runStore, List.foldl_cons, hstep, ← runStore, hrest]
            have hnotes : s1.notes =
                s.notes ++ (s.listeners k2).map (fun x => (x, v)) := by
              simp [hs1, notifyListener, memSet]
            rw [hnotes, deliveredTo_append, deliveredTo_map_const, hzero k2]
            simp
      | removeP k2 =>
          set s1 := notifyListener
            { s with memory := memSet s.memory k2 JsValue.undefined } k2 with hs1
          have hlist : s1.listeners = s.listeners := by simp [hs1, notifyListener]
          have hrest := ih s1 l (by intro k3; rw [hlist]; exact hzero k3)
            (by simpa [listenTargets] using hl)
          have hstep : stepStore s (StoreOp.removeP k2) = s1 := by
            simp [stepStore, removeP, hs1]
          rw [runStore, List.foldl_cons, hstep, ← runStore, hrest]
          have hnotes : s1.notes =
              s.notes ++ (s.listeners k2).map (fun x => (x, JsValue.undefined)) := by
            simp [hs1, notifyListener, memSet]
          rw [hnotes, deliveredTo_append, deliveredTo_map_const, hzero k2]
          simp
      | listen k2 l2 =>
          have hl2 : l2 ≠ l := by
            intro h; subst h
            exact absurd (by simp [listenTargets]) hl
          set s1 := listenAdd s k2 l2 with hs1
          have hzero1 : ∀ k3, (s1.listeners k3).count l = 0 := by
            intro k3
            by_cases hkk : k3 = k2
            · subst hkk
              simpa [hs1, listenAdd, List.count_append, List.count_singleton', hl2]
                using hzero k3
            · simpa [hs1, listenAdd, hkk] using hzero k3
          have hrest := ih s1 l hzero1 (by
            have := hl
            simp [listenTargets] at this ⊢
            exact this.2)
          have hstep : stepStore s (StoreOp.listen k2 l2) = s1 := by simp [stepStore, hs1]
          rw [runStore, List.foldl_cons, hstep, ← runStore, hrest]
          simp [hs1, listenAdd]

theorem listeners_run_sub (ops : List StoreOp) :
    ∀ (s : StoreState) (k2 : String) (l : Nat),
      l ∈ (runStore s ops).listeners k2 → l ∈ s.listeners k2 ∨ l ∈ listenTargets ops := by
  induction ops with
  | nil => intro s k2 l h; exact Or.inl (by simpa [runStore] using h)
  | cons op rest ih =>
      intro s k2 l h
      simp only [runStore, List.foldl_cons] at h
      rcases ih (stepStore s op) k2 l h with h1 | h1
      · cases op with
        | setP k3 v =>
            by_cases hk3 : k3 = ""
            · exact Or.inl (by simpa [stepStore, setP, hk3] using h1)
            · left
              simpa [stepStore, setP, hk3, notifyListener] using h1
        | removeP k3 =>
            exact Or.inl (by simpa [stepStore, removeP, notifyListener] using h1)
        | listen k3 l3 =>
            by_cases hkk : k2 = k3
            · subst hkk
              have : l ∈ s.listeners k2 ++ [l3] := by
                simpa [stepStore, listenAdd] using h1
              rcases List.mem_append.mp this with h2 | h2
              · exact Or.inl h2
              · right
                simp [listenTargets]
                left
                simpa using h2
            · exact Or.inl (by simpa [stepStore, listenAdd, hkk] using h1)
      · right
        cases op <;> simp [listenTargets] at h1 ⊢ <;> tauto

end StoreLemmas

/--
Claim C7: a subscriber registered for key `k` via listen receives, for each
subsequent successful write or delete of `k` over the protocol (promise-path
set and remove, as Manager.handle dispatches worker requests), exactly one
notification carrying the new value (undefined for a delete), after the store
mutation; over the whole run it receives exactly the post-subscription
sequence of written values, in write order, with no gaps, duplicates or
reordering.
-/
theorem subscriber_sequence (k : String) (l : Nat) (pre post : List StoreOp)
    (hpre : l ∉ listenTargets pre) (hpost : l ∉ listenTargets post) :
    deliveredTo l (runStore initStore (pre ++ StoreOp.listen k l :: post)).notes =
      valuesFor k post := by
  have hsplit : runStore initStore (pre ++ StoreOp.listen k l :: post) =
      runStore (listenAdd (runStore initStore pre) k l) post := by
    simp [runStore, List.foldl_append, List.foldl_cons, stepStore]
  set s1 := runStore initStore pre with hs1
  have habsent : ∀ k2, (s1.listeners k2).count l = 0 := by
    intro k2
    rw [List.count_eq_zero]
    intro hmem
    rcases listeners_run_sub pre initStore k2 l hmem with h | h
    · simp [initStore] at h
    · exact hpre h
  have hnotes1 : deliveredTo l s1.notes = [] := by
    have := delivered_run_absent pre initStore l
      (by intro k2; simp [initStore]) hpre
    simpa [initStore, deliveredTo] using this
  set s2 := listenAdd s1 k l with hs2
  have hcount2 : (s2.listeners k).count l = 1 := by
    simp [hs2, listenAdd, List.count_append, List.count_singleton', habsent k]
  have hzero2 : ∀ k2, k2 ≠ k → (s2.listeners k2).count l = 0 := by
    intro k2 h2
    simpa [hs2, listenAdd, h2] using habsent k2
  have hnotes2 : s2.notes = s1.notes := by simp [hs2, listenAdd]
  rw [hsplit, delivered_run post s2 k l hcount2 hzero2 hpost, hnotes2, hnotes1]
  simp

/-- Claim C7 witness: concrete run with one pre-subscription write, then a
subscription of listener 5 to key a, then two writes and a delete. -/
theorem subscriber_sequence_witness :
    5 ∉ listenTargets [StoreOp.setP "a" (JsValue.num 1)] ∧
    5 ∉ listenTargets [StoreOp.setP "a" (JsValue.num 2), StoreOp.setP "b" (JsValue.num 9),
      StoreOp.removeP "a"] ∧
    deliveredTo 5 (runStore initStore
      ([StoreOp.setP "a" (JsValue.num 1)] ++ StoreOp.listen "a" 5 ::
        [StoreOp.setP "a" (JsValue.num 2), StoreOp.setP "b" (JsValue.num 9),
          StoreOp.removeP "a"])).notes =
      valuesFor "a" [StoreOp.setP "a" (JsValue.num 2), StoreOp.setP "b" (JsValue.num 9),
        StoreOp.removeP "a"] :=
  ⟨by decide, by decide,
    subscriber_sequence "a" 5 [StoreOp.setP "a" (JsValue.num 1)]
      [StoreOp.setP "a" (JsValue.num 2), StoreOp.setP "b" (JsValue.num 9),
        StoreOp.removeP "a"] (by decide) (by decide)⟩

/--
Claim C8 counterexample: the claim quantifies over every key, but
Manager.set guards on JS truthiness of the key (`if (k)`), so writing under
the empty (falsy) key is a silent no-op: after set with the empty key,
get returns undefined, not the written value.
-/
theorem empty_key_set_lost :
    (runStore initStore
      [StoreOp.setP "" (JsValue.num 1), StoreOp.setP "" (JsValue.num 2)]).memory ""
      ≠ JsValue.num 2 := by
  decide

/--
Claim C8 (amended): for every truthy (nonempty) key, two successive sets
leave the last written value, which get returns (last write wins); and for
every key, after remove, get returns the absent marker undefined.
-/
theorem store_last_write_wins (s : StoreState) (k : String) (v1 v2 : JsValue)
    (hk : k ≠ "") :
    (runStore s [StoreOp.setP k v1, StoreOp.setP k v2]).memory k = v2 ∧
    (∀ (s2 : StoreState) (k2 : String), (removeP s2 k2).memory k2 = JsValue.undefined) := by
  constructor
  · simp [runStore, stepStore, setP, hk, notifyListener, memSet]
  · intro s2 k2
    simp [removeP, notifyListener, memSet]

/-- Claim C8 witness: last write wins at key a with values 1 and 2, and
remove leaves undefined. -/
theorem store_last_write_wins_witness :
    ("a" : String) ≠ "" ∧
    (runStore initStore
      [StoreOp.setP "a" (JsValue.num 1), StoreOp.setP "a" (JsValue.num 2)]).memory "a"
      = JsValue.num 2 ∧
    (removeP initStore "b").memory "b" = JsValue.undefined :=
  ⟨by decide, (store_last_write_wins initStore "a" (JsValue.num 1) (JsValue.num 2)
      (by decide)).1,
    (store_last_write_wins initStore "a" (JsValue.num 1) (JsValue.num 2)
      (by decide)).2 initStore "b"⟩

/--
Claim C10: in a callback-style Manager.set(k, v, cb) or Manager.remove(k, cb)
the callback branch does not return, so the promise branch repeats the store
mutation and the listener notification in the same call: a subscriber
registered once for `k` receives two notifications for that single write
(value v twice) or delete (undefined twice).
-/
theorem callback_write_notifies_twice (s : StoreState) (k : String) (v : JsValue)
    (l : Nat) (hk : k ≠ "") (hl : (s.listeners k).count l = 1) :
    deliveredTo l (setCb s k v).notes = deliveredTo l s.notes ++ [v, v] ∧
    deliveredTo l (removeCb s k).notes =
      deliveredTo l s.notes ++ [JsValue.undefined, JsValue.undefined] := by
  constructor
  · have : (setCb s k v).notes =
        s.notes ++ (s.listeners k).map (fun x => (x, v))
          ++ (s.listeners k).map (fun x => (x, v)) := by
      simp [setCb, hk, notifyListener, memSet]
    rw [this, deliveredTo_append, deliveredTo_append, deliveredTo_map_const, hl]
    simp
  · have : (removeCb s k).notes =
        s.notes ++ (s.listeners k).map (fun x => (x, JsValue.undefined))
          ++ (s.listeners k).map (fun x => (x, JsValue.undefined)) := by
      simp [removeCb, notifyListener, memSet]
    rw [this, deliveredTo_append, deliveredTo_append, deliveredTo_map_const, hl]
    simp

/-- Concrete store whose only listener is listener 5 on key a. -/
def oneListenerStore : StoreState :=
  { memory := fun _ => JsValue.undefined
    listeners := fun k2 => if k2 = "a" then [5] else []
    notes := [] }

/-- Claim C10 witness: with listener 5 registered once on key a, a
callback-style set delivers the value twice and a callback-style remove
delivers undefined twice. -/
theorem callback_write_notifies_twice_witness :
    ("a" : String) ≠ "" ∧ (oneListenerStore.listeners "a").count 5 = 1 ∧
    deliveredTo 5 (setCb oneListenerStore "a" (JsValue.num 3)).notes =
      deliveredTo 5 oneListenerStore.notes ++ [JsValue.num 3, JsValue.num 3] ∧
    deliveredTo 5 (removeCb oneListenerStore "a").notes =
      deliveredTo 5 oneListenerStore.notes ++ [JsValue.undefined, JsValue.undefined] :=
  ⟨by decide, by decide,
    (callback_write_notifies_twice oneListenerStore "a" (JsValue.num 3) 5
      (by decide) (by decide)).1,
    (callback_write_notifies_twice oneListenerStore "a" (JsValue.num 3) 5
      (by decide) (by decide)).2⟩

/-- Result of Manager.releaseLock: `ok` models the resolution with the string
OK, `mismatch` models the resolution with the failure message
(Failed. LockId:... does not match ...). -/
inductive RelResult where
  | ok
  | mismatch
  deriving DecidableEq, Repr

/-- Ghost trace of lock-table events: `enq k w` records that waiter callback
`w` was pushed on the queue of `k`; `grant k w t` records that waiter `w` was
invoked with freshly minted token `t` for key `k`; `relOk k t` records a
successful release of `k` that presented `t` (`none` models presenting the
JS undefined lock id while no holder was recorded). -/
inductive LockEv where
  | enq (k : String) (w : Nat)
  | grant (k : String) (w t : Nat)
  | relOk (k : String) (t : Option Nat)
  deriving DecidableEq, Repr

/--
Lock-table state of `__sharedMemory__`: `locks` maps a key to its recorded
holder token (none models an absent/deleted property, which is falsy),
`queues` maps a key to the queued waiter callbacks in arrival order
(`lockRequestQueues`), `next` is the fresh-token counter modelling uuid4,
and `events` is the ghost trace of enqueues, grants and successful releases.
-/
structure LockState where
  locks : String → Option Nat
  queues : String → List Nat
  next : Nat
  events : List LockEv

def initLock : LockState :=
  { locks := fun _ => none, queues := fun _ => [], next := 0, events := [] }

/--
Manager.handleLockRequest(k): if `k` has no recorded holder (`!locks[k]`,
a present uuid string is always truthy) and the queue of `k` is nonempty,
shift the oldest waiter off the queue, mint a fresh token, record it as the
holder of `k`, and invoke the waiter with it (recorded as a grant event);
otherwise do nothing.
-/
def handleLockRequest (s : LockState) (k : String) : LockState :=
  match s.locks k, s.queues k with
  | none, w :: rest =>
      { locks := fun k2 => if k2 = k then some s.next else s.locks k2
        queues := fun k2 => if k2 = k then rest else s.queues k2
        next := s.next + 1
        events := s.events ++ [LockEv.grant k w s.next] }
  | _, _ => s

/-- The push of a waiter callback onto the queue of `k` (callback branch of
Manager.getLock). -/
def enqWaiter (s : LockState) (k : String) (w : Nat) : LockState :=
  { s with
      queues := fun k2 => if k2 = k then s.queues k2 ++ [w] else s.queues k2
      events := s.events ++ [LockEv.enq k w] }

/--
Manager.getLock(k, cb) with a callback: push `cb` and handle the request
(callback branch); then the promise branch also runs, whose push is the
no-op property access `lockRequestQueues[k].pushresolve`, followed by a
second handleLockRequest.
-/
def getLockCb (s : LockState) (k : String) (w : Nat) : LockState :=
  handleLockRequest (handleLockRequest (enqWaiter s k w) k) k

/--
Manager.getLock(k) without a callback (the path every worker request and
Manager.mutex take): the promise branch evaluates
`lockRequestQueues[k].pushresolve`, a property access that never calls push,
so the resolver `w` is NOT enqueued; only handleLockRequest(k) runs.
-/
def getLockP (s : LockState) (k : String) (_w : Nat) : LockState :=
  handleLockRequest s k

/--
Manager.releaseLock(k, lockId) promise path: if the presented lock id is
strictly equal to the recorded holder (JS ===; both being undefined also
compares equal), delete the holder, run handleLockRequest(k) (which grants
the next queued waiter in the same step, if any), and resolve OK; otherwise
resolve the failure message and change nothing.
-/
def releaseLockP (s : LockState) (k : String) (t : Option Nat) : LockState × RelResult :=
  if t = s.locks k then
    (handleLockRequest
      { s with
          locks := fun k2 => if k2 = k then none else s.locks k2
          events := s.events ++ [LockEv.relOk k t] } k,
     RelResult.ok)
  else (s, RelResult.mismatch)

/-- Lock operations: `cb` is a callback-style getLock, `pr` a promise-style
getLock (the resolver `w` is never enqueued), `rel` a promise-style
releaseLock presenting token `t`. -/
inductive LockOp where
  | cb (k : String) (w : Nat)
  | pr (k : String) (w : Nat)
  | rel (k : String) (t : Option Nat)
  deriving DecidableEq, Repr

def stepLock (s : LockState) (op : LockOp) : LockState :=
  match op with
  | LockOp.cb k w => getLockCb s k w
  | LockOp.pr k w => getLockP s k w
  | LockOp.rel k t => (releaseLockP s k t).1

def runLock (ops : List LockOp) : LockState :=
  ops.foldl stepLock initLock

/-- One step of the outstanding-token computation over the event trace. -/
def outStep (k : String) (acc : List Nat) (e : LockEv) : List Nat :=
  match e with
  | LockEv.enq _ _ => acc
  | LockEv.grant k2 _ t => if k2 = k then acc ++ [t] else acc
  | LockEv.relOk k2 t? =>
      if k2 = k then
        match t? with
        | some t => acc.erase t
        | none => acc
      else acc

/-- The outstanding holder tokens for key `k`: every token granted for `k`
and not yet successfully released. -/
def outstanding (evs : List LockEv) (k : String) : List Nat :=
  evs.foldl (outStep k) []

/-- The waiters enqueued for `k`, in arrival order, read off the trace. -/
def enqList (evs : List LockEv) (k : String) : List Nat :=
  evs.filterMap (fun e =>
    match e with
    | LockEv.enq k2 w => if k2 = k then some w else none
    | _ => none)

/-- The waiters granted the lock of `k`, in grant order, read off the trace. -/
def grantedW (evs : List LockEv) (k : String) : List Nat :=
  evs.filterMap (fun e =>
    match e with
    | LockEv.grant k2 w _ => if k2 = k then some w else none
    | _ => none)

/-- The view of an optional holder as a list of holders. -/
def optList : Option Nat → List Nat
  | none => []
  | some t => [t]

/-- Token-accounting invariant: for every key the outstanding tokens are
exactly the recorded holder. -/
def InvTok (s : LockState) : Prop :=
  ∀ k, outstanding s.events k = optList (s.locks k)

/-- FIFO invariant: for every key, the waiters enqueued so far are exactly
the waiters granted so far followed by the current queue. -/
def InvFifo (s : LockState) : Prop :=
  ∀ k, enqList s.events k = grantedW s.events k ++ s.queues k

section LockLemmas

theorem outstanding_append (evs : List LockEv) (e : LockEv) (k : String) :
    outstanding (evs ++ [e]) k = outStep k (outstanding evs k) e := by
  simp [outstanding, List.foldl_append]

theorem enqList_append (evs : List LockEv) (e : LockEv) (k : String) :
    enqList (evs ++ [e]) k = enqList evs k ++ enqList [e] k := by
  simp [enqList]

theorem grantedW_append (evs : List LockEv) (e : LockEv) (k : String) :
    grantedW (evs ++ [e]) k = grantedW evs k ++ grantedW [e] k := by
  simp [grantedW]

theorem invTok_handle (s : LockState) (k0 : String) (h : InvTok s) :
    InvTok (handleLockRequest s k0) := by
  intro k
  unfold handleLockRequest
  rcases hl : s.locks k0 with _ | t
  · rcases hq : s.queues k0 with _ | ⟨w, rest⟩
    · simpa [hl, hq] using h k
    · simp only [hl, hq]
      rw [outstanding_append]
      by_cases hk : k = k0
      · subst hk
        have h0 := h k
        rw [hl] at h0
        simp [outStep, h0, optList]
      · simp [outStep, Ne.symm hk, hk, h k]
  · simpa [hl] using h k

theorem invTok_enq (s : LockState) (k0 : String) (w : Nat) (h : InvTok s) :
    InvTok (enqWaiter s k0 w) := by
  intro k
  simp only [enqWaiter]
  rw [outstanding_append]
  simpa [outStep] using h k

theorem invTok_release (s : LockState) (k0 : String) (t : Option Nat) (h : InvTok s) :
    InvTok (releaseLockP s k0 t).1 := by
  unfold releaseLockP
  by_cases hg : t = s.locks k0
  · rw [if_pos hg]
    have h1 : InvTok { s with
        locks := fun k2 => if k2 = k0 then none else s.locks k2
        events := s.events ++ [LockEv.relOk k0 t] } := by
      intro k
      dsimp only
      rw [outstanding_append]
      by_cases hk : k = k0
      · subst hk
        have h0 := h k
        rcases hl : s.locks k with _ | t0
        · rw [hl] at h0
          rw [hg, hl]
          simp [outStep, h0, optList]
        · rw [hl] at h0
          rw [hg, hl]
          simp [outStep, h0, optList, List.erase_cons_head]
      · simp [outStep, Ne.symm hk, hk, h k]
    exact invTok_handle _ _ h1
  · rw [if_neg hg]
    exact h

theorem invTok_step (s : LockState) (op : LockOp) (h : InvTok s) :
    InvTok (stepLock s op) := by
  cases op with
  | cb k w =>
      exact invTok_handle _ _ (invTok_handle _ _ (invTok_enq _ _ _ h))
  | pr k w => exact invTok_handle _ _ h
  | rel k t => exact invTok_release _ _ _ h

theorem invTok_run (ops : List LockOp) : InvTok (runLock ops) := by
  have hinit : InvTok initLock := by
    intro k; simp [initLock, outstanding, optList]
  rw [runLock]
  induction ops using List.reverseRecOn with
  | nil => simpa using hinit
  | append_singleton rest op ih =>
      rw [List.foldl_append, List.foldl_cons, List.foldl_nil]
      exact invTok_step _ _ ih

end LockLemmas

section FifoLemmas
section FifoLemmas

theorem enqList_single (e : LockEv) (k : String) :
    enqList [e] k =
      (match e with
      | LockEv.enq k2 w => if k2 = k then [w] else []
      | _ => []) := by
  cases e with
  | enq k2 w => by_cases h : k2 = k <;> simp [enqList, h]
  | grant k2 w t => simp [enqList]
  | relOk k2 t => simp [enqList]

theorem grantedW_single (e : LockEv) (k : String) :
    grantedW [e] k =
      (match e with
      | LockEv.grant k2 w _ => if k2 = k then [w] else []
      | _ => []) := by
  cases e with
  | enq k2 w => simp [grantedW]
  | grant k2 w t => by_cases h : k2 = k <;> simp [grantedW, h]
  | relOk k2 t => simp [grantedW]

theorem invFifo_handle (s : LockState) (k0 : String) (h : InvFifo s) :
    InvFifo (handleLockRequest s k0) := by
  intro k
  unfold handleLockRequest
  rcases hl : s.locks k0 with _ | t
  · rcases hq : s.queues k0 with _ | ⟨w, rest⟩
    · simpa [hl, hq] using h k
    · simp only [hl, hq]
      rw [enqList_append, grantedW_append, enqList_single, grantedW_single]
      by_cases hk : k = k0
      · subst hk
        have h0 := h k
        rw [hq] at h0
        simp [h0]
      · simp [Ne.symm hk, hk, h k]
  · simpa [hl] using h k

theorem invFifo_enq (s : LockState) (k0 : String) (w : Nat) (h : InvFifo s) :
    InvFifo (enqWaiter s k0 w) := by
  intro k
  simp only [enqWaiter]
  rw [enqList_append, grantedW_append, enqList_single, grantedW_single]
  by_cases hk : k = k0
  · subst hk
    simp [h k]
  · simp [Ne.symm hk, hk, h k]

theorem invFifo_release (s : LockState) (k0 : String) (t : Option Nat) (h : InvFifo s) :
    InvFifo (releaseLockP s k0 t).1 := by
  unfold releaseLockP
  by_cases hg : t = s.locks k0
  · rw [if_pos hg]
    have h1 : InvFifo { s with
        locks := fun k2 => if k2 = k0 then none else s.locks k2
        events := s.events ++ [LockEv.relOk k0 t] } := by
      intro k
      dsimp only
      rw [enqList_append, grantedW_append, enqList_single, grantedW_single]
      simp [h k]
    exact invFifo_handle _ _ h1
  · rw [if_neg hg]
    exact h

theorem invFifo_step (s : LockState) (op : LockOp) (h : InvFifo s) :
    InvFifo (stepLock s op) := by
  cases op with
  | cb k w =>
      exact invFifo_handle _ _ (invFifo_handle _ _ (invFifo_enq _ _ _ h))
  | pr k w => exact invFifo_handle _ _ h
  | rel k t => exact invFifo_release _ _ _ h

theorem invFifo_run (ops : List LockOp) : InvFifo (runLock ops) := by
  have hinit : InvFifo initLock := by
    intro k; simp [initLock, enqList, grantedW]
  rw [runLock]
  induction ops using List.reverseRecOn with
  | nil => simpa using hinit
  | append_singleton rest op ih =>
      rw [List.foldl_append, List.foldl_cons, List.foldl_nil]
      exact invFifo_step _ _ ih

end FifoLemmas

/-- The tokens delivered to waiter callback `w` over the trace, in order. -/
def grantsTo (evs : List LockEv) (w : Nat) : List Nat :=
  evs.filterMap (fun e =>
    match e with
    | LockEv.grant _ w2 t => if w2 = w then some t else none
    | _ => none)

theorem grantsTo_append (evs : List LockEv) (e : LockEv) (w : Nat) :
    grantsTo (evs ++ [e]) w = grantsTo evs w ++ grantsTo [e] w := by
  simp [grantsTo]

theorem grantsTo_single_grant (k2 : String) (w2 t w : Nat) :
    grantsTo [LockEv.grant k2 w2 t] w = if w2 = w then [t] else [] := by
  by_cases h : w2 = w <;> simp [grantsTo, h]

theorem grantsTo_handle (s : LockState) (k : String) (w : Nat)
    (hw : w ∉ s.queues k) :
    grantsTo (handleLockRequest s k).events w = grantsTo s.events w := by
  unfold handleLockRequest
  rcases hl : s.locks k with _ | t
  · rcases hq : s.queues k with _ | ⟨w2, rest⟩
    · simp [hl, hq]
    · have hw2 : w2 ≠ w := by
        intro h
        subst h
        exact hw (by rw [hq]; exact List.mem_cons_self _ _)
      simp only [hl, hq]
      rw [grantsTo_append, grantsTo_single_grant, if_neg hw2]
      simp
  · simp [hl]

/--
Outcome of one Manager.mutex(k, f) call: the resulting lock state, whether
the action `f` was ever run, and whether releaseLock was performed.
-/
structure MutexOutcome where
  state : LockState
  ranAction : Bool
  releasedLock : Bool

/--
The tail of Manager.mutex after the awaited getLock has delivered token `t`:
`await f()` and then releaseLock.  There is no try/finally, so when the
action fails (`actionOk = false`) the await rethrows and the releaseLock
line is never reached.
-/
def mutexAfterAcquire (s1 : LockState) (k : String) (t : Nat) (actionOk : Bool) :
    MutexOutcome :=
  if actionOk then
    { state := (releaseLockP s1 k (some t)).1, ranAction := true, releasedLock := true }
  else
    { state := s1, ranAction := true, releasedLock := false }

/--
Manager.mutex(k, f): awaits the promise-style getLock, whose resolver `w`
is modelled as a waiter id; the await completes only if a grant event for
`w` was produced by the call.  Because the promise path never enqueues the
resolver, that never happens, and mutex stays pending before running `f`.
-/
def mutexM (s : LockState) (k : String) (w : Nat) (actionOk : Bool) : MutexOutcome :=
  match ((grantsTo (getLockP s k w).events w).drop
      (grantsTo s.events w).length).head? with
  | some t => mutexAfterAcquire (getLockP s k w) k t actionOk
  | none => { state := getLockP s k w, ranAction := false, releasedLock := false }

/--
Claim C1 (code evaluated at the failing input): a promise-style getLock on a
fresh Manager does NOT enqueue the resolver (the source evaluates the
property access `lockRequestQueues[k].pushresolve` instead of calling push),
so no token is minted, no holder is recorded, no grant happens and the
returned promise never resolves; the state is completely unchanged.
-/
theorem promise_getLock_no_grant :
    runLock [LockOp.pr "a" 0] = initLock ∧
    grantedW (runLock [LockOp.pr "a" 0]).events "a" = [] ∧
    (runLock [LockOp.pr "a" 0]).locks "a" = none ∧
    (runLock [LockOp.pr "a" 0]).next = 0 :=
  ⟨rfl, rfl, rfl, rfl⟩

/--
Claim C2: over every sequence of getLock / releaseLock / handleLockRequest
operations, each key has at most one outstanding holder token at any time,
and handleLockRequest grants (changes anything at all) only in a state where
the key has no recorded holder.
-/
theorem lock_single_holder :
    (∀ (ops : List LockOp) (k : String),
      (outstanding (runLock ops).events k).length ≤ 1) ∧
    (∀ (s : LockState) (k : String), s.locks k ≠ none → handleLockRequest s k = s) := by
  constructor
  · intro ops k
    rw [invTok_run ops k]
    cases (runLock ops).locks k <;> simp [optList]
  · intro s k h
    unfold handleLockRequest
    rcases hl : s.locks k with _ | t
    · exact absurd hl h
    · rcases hq : s.queues k with _ | ⟨w2, rest⟩ <;> rfl

/-- Concrete lock state whose key a is held with token 5 and empty queues. -/
def lockedA : LockState :=
  { initLock with locks := fun k2 => if k2 = "a" then some 5 else none }

/-- Claim C2 witness: a concrete run has at most one outstanding token for
key a, and handleLockRequest on a held key is the identity. -/
theorem lock_single_holder_witness :
    (outstanding (runLock [LockOp.cb "a" 1, LockOp.cb "a" 2]).events "a").length ≤ 1 ∧
    lockedA.locks "a" ≠ none ∧ handleLockRequest lockedA "a" = lockedA :=
  ⟨lock_single_holder.1 [LockOp.cb "a" 1, LockOp.cb "a" 2] "a",
    by decide, lock_single_holder.2 lockedA "a" (by decide)⟩

/--
Claim C3: FIFO granting.  First conjunct: over every run, the waiters
enqueued for a key are exactly the waiters already granted (in grant order)
followed by the still-queued waiters — so grants happen in enqueue order and
no waiter is ever skipped; if A enqueued before B, A is granted first.
Second conjunct: releaseLock with the matching token clears the holder and,
when the queue is nonempty, grants the waiter at its head a fresh token in
the same step.
-/
theorem fifo_grant_order :
    (∀ (ops : List LockOp) (k : String),
      enqList (runLock ops).events k =
        grantedW (runLock ops).events k ++ (runLock ops).queues k) ∧
    (∀ (s : LockState) (k : String) (t w : Nat) (rest : List Nat),
      s.locks k = some t → s.queues k = w :: rest →
      (releaseLockP s k (some t)).2 = RelResult.ok ∧
      (releaseLockP s k (some t)).1.locks k = some s.next ∧
      (releaseLockP s k (some t)).1.queues k = rest ∧
      (releaseLockP s k (some t)).1.events =
        s.events ++ [LockEv.relOk k (some t), LockEv.grant k w s.next]) := by
  constructor
  · intro ops k
    exact invFifo_run ops k
  · intro s k t w rest h1 h2
    simp [releaseLockP, handleLockRequest, h1, h2]

/-- Claim C3 witness: waiters 1 then 2 queue on key a; waiter 1 holds token
0; releasing with token 0 grants waiter 2 (head of the queue) token 1 in the
same step. -/
theorem fifo_grant_order_witness :
    enqList (runLock [LockOp.cb "a" 1, LockOp.cb "a" 2, LockOp.rel "a" (some 0)]).events "a" =
      grantedW (runLock [LockOp.cb "a" 1, LockOp.cb "a" 2, LockOp.rel "a" (some 0)]).events "a"
        ++ (runLock [LockOp.cb "a" 1, LockOp.cb "a" 2, LockOp.rel "a" (some 0)]).queues "a" ∧
    (runLock [LockOp.cb "a" 1, LockOp.cb "a" 2]).locks "a" = some 0 ∧
    (runLock [LockOp.cb "a" 1, LockOp.cb "a" 2]).queues "a" = [2] ∧
    (releaseLockP (runLock [LockOp.cb "a" 1, LockOp.cb "a" 2]) "a" (some 0)).2 =
      RelResult.ok ∧
    (releaseLockP (runLock [LockOp.cb "a" 1, LockOp.cb "a" 2]) "a" (some 0)).1.locks "a" =
      some (runLock [LockOp.cb "a" 1, LockOp.cb "a" 2]).next :=
  ⟨fifo_grant_order.1 [LockOp.cb "a" 1, LockOp.cb "a" 2, LockOp.rel "a" (some 0)] "a",
    by decide, by decide,
    (fifo_grant_order.2 (runLock [LockOp.cb "a" 1, LockOp.cb "a" 2]) "a" 0 2 []
      (by decide) (by decide)).1,
    (fifo_grant_order.2 (runLock [LockOp.cb "a" 1, LockOp.cb "a" 2]) "a" 0 2 []
      (by decide) (by decide)).2.1⟩

/--
Claim C4: releaseLock with a token different from the recorded holder
resolves the conflict message and leaves the whole lock state unchanged
(holder, queues, counter and trace), and a release presenting the true
recorded holder still succeeds on that unchanged state.
-/
theorem release_wrong_token (s : LockState) (k : String) (t : Option Nat)
    (h : t ≠ s.locks k) :
    releaseLockP s k t = (s, RelResult.mismatch) ∧
    (∀ t0, s.locks k = some t0 → (releaseLockP s k (some t0)).2 = RelResult.ok) := by
  constructor
  · simp [releaseLockP, h]
  · intro t0 h0
    simp [releaseLockP, h0]

/-- Claim C4 witness: with key a held by token 5, releasing with token 3
fails and changes nothing, and releasing with token 5 then succeeds. -/
theorem release_wrong_token_witness :
    some 3 ≠ lockedA.locks "a" ∧
    releaseLockP lockedA "a" (some 3) = (lockedA, RelResult.mismatch) ∧
    (releaseLockP lockedA "a" (some 5)).2 = RelResult.ok :=
  ⟨by decide, (release_wrong_token lockedA "a" (some 3) (by decide)).1,
    (release_wrong_token lockedA "a" (some 3) (by decide)).2 5 (by decide)⟩

/--
Claim C5 (code evaluated at the failing input): Manager.mutex awaits the
promise-style getLock whose resolver is never enqueued, so for any fresh
resolver the await never completes: the action `f` is never run and no
release happens (first conjunct).  Independently, the mutex body has no
try/finally: after a successful acquire of token `t`, a failing action
skips the releaseLock line and leaves the key held by `t` (second
conjunct).
-/
theorem mutex_never_releases (s : LockState) (k : String) (w : Nat) (b : Bool)
    (hw : w ∉ s.queues k) :
    mutexM s k w b =
      { state := getLockP s k w, ranAction := false, releasedLock := false } ∧
    (∀ (s1 : LockState) (t : Nat), s1.locks k = some t →
      (mutexAfterAcquire s1 k t false).releasedLock = false ∧
      (mutexAfterAcquire s1 k t false).state.locks k = some t) := by
  constructor
  · have hg : grantsTo (getLockP s k w).events w = grantsTo s.events w :=
      grantsTo_handle s k w hw
    unfold mutexM
    rw [hg, List.drop_length]
    rfl
  · intro s1 t h1
    simp [mutexAfterAcquire, h1]

/-- Claim C5 witness: on a fresh Manager, mutex on key a never runs its
action and never releases; and with key a held by token 5, a failing action
leaves the lock held. -/
theorem mutex_never_releases_witness :
    (0 : Nat) ∉ initLock.queues "a" ∧
    mutexM initLock "a" 0 true =
      { state := getLockP initLock "a" 0, ranAction := false, releasedLock := false } ∧
    (mutexAfterAcquire lockedA "a" 5 false).releasedLock = false ∧
    (mutexAfterAcquire lockedA "a" 5 false).state.locks "a" = some 5 :=
  ⟨by decide, (mutex_never_releases initLock "a" 0 true (by decide)).1,
    ((mutex_never_releases initLock "a" 0 true (by decide)).2 lockedA 5 (by decide)).1,
    ((mutex_never_releases initLock "a" 0 true (by decide)).2 lockedA 5 (by decide)).2⟩

/-- Dispatch error: calling `this[data.method]` when that property is
undefined raises a TypeError (...is not a function), and calling `.then` on
the undefined return of a falsy-key set raises one as well. -/
inductive DispatchErr where
  | typeError (detail : String)
  deriving DecidableEq, Repr

/-- Full Manager state reachable from the worker protocol: the primary
store with its listeners, the lock table, and the LRU cache namespace
(modelled as a plain map; the capacity/age eviction of the external
lru-cache library is outside the repository and not modelled — no claim
touches it). -/
structure ManagerState where
  store : StoreState
  lock : LockState
  lru : String → JsValue

def initManager : ManagerState :=
  { store := initStore, lock := initLock, lru := fun _ => JsValue.undefined }

/-- The dispatch argument rule of Manager.handle:
`const args = data.value ? [data.key, data.value] : [data.key]` — a falsy
value is dropped and the method is called with the key only, so its value
parameter is undefined. -/
def dispatchValue (v : JsValue) : Option JsValue :=
  if truthy v then some v else none

/-- The JS strict comparison `lockId === locks[k]` between the dispatched
lock id and the recorded holder: both undefined compare equal, a number
compares equal to the holder token it encodes.  (A worker can only present
a token it received from getLock, modelled as a number; other value shapes
are not modelled.) -/
def jsTokenMatches (v? : Option JsValue) (cur : Option Nat) : Bool :=
  match v?, cur with
  | none, none => true
  | some (JsValue.num n), some t => n = (t : Int)
  | _, _ => false

/-- Encoding of a releaseLock result as the resolved reply value (the
source resolves the string OK or the Failed... message). -/
def relReply : RelResult → JsValue
  | RelResult.ok => JsValue.str "OK"
  | RelResult.mismatch => JsValue.str "Failed"

/-- The method names Manager.handle can dispatch to an operation handler
(listen is special-cased before the generic dispatch). -/
def dispatchMethods : List String :=
  ["listen", "set", "get", "remove", "getLock", "releaseLock",
    "getLRU", "setLRU", "removeLRU"]

/-- Every own property name of a Manager instance: the nine dispatchable
operation names, the remaining prototype methods, and the fields assigned
in the constructor.  `this[data.method]` is defined exactly for these
names, so a method outside this list makes `this[data.method](...args)`
raise a TypeError synchronously. -/
def managerProps : List String :=
  ["listen", "set", "get", "remove", "getLock", "releaseLock",
    "getLRU", "setLRU", "removeLRU",
    "mutex", "handleLockRequest", "notifyListener", "setLRUOptions",
    "removeListener", "logger", "handle", "constructor",
    "__sharedMemory__", "__sharedLRUMemory__", "defaultLRUOptions"]

/--
Manager.handle(data, worker) for one request `{method, key, value}` from a
worker (`w` stands for the request uuid, identifying the listener callback
or lock resolver the coordinator would create for it).  Result: the reply
value sent back (`none` when no reply is ever sent), or the TypeError the
dispatch raises, paired with the state after the call.  The generic branch
calls `this[data.method](...args)` with no callback, hence every handler
runs its promise path.  Method names hitting the remaining Manager
properties are modelled one by one below from a trace of each call; a
method name that is no property of Manager makes the call raise a
TypeError synchronously.  A falsy key makes set/setLRU return undefined
instead of a promise, so the `.then` call raises a TypeError after the
(empty) handler ran.
-/
def handleDispatch (s : ManagerState) (m k : String) (v : JsValue) (w : Nat) :
    (Except DispatchErr (Option JsValue)) × ManagerState :=
  if m = "listen" then
    (Except.ok none, { s with store := listenAdd s.store k w })
  else if m = "set" then
    if k = "" then (Except.error (DispatchErr.typeError "set_returned_undefined"), s)
    else
      (Except.ok (some (JsValue.str "OK")),
        { s with store := setP s.store k ((dispatchValue v).getD JsValue.undefined) })
  else if m = "get" then
    (Except.ok (some (s.store.memory k)), s)
  else if m = "remove" then
    (Except.ok (some (JsValue.str "OK")), { s with store := removeP s.store k })
  else if m = "getLock" then
    (Except.ok none, { s with lock := getLockP s.lock k w })
  else if m = "releaseLock" then
    if jsTokenMatches (dispatchValue v) (s.lock.locks k) then
      (Except.ok (some (relReply (releaseLockP s.lock k (s.lock.locks k)).2)),
        { s with lock := (releaseLockP s.lock k (s.lock.locks k)).1 })
    else
      (Except.ok (some (relReply RelResult.mismatch)), s)
  else if m = "getLRU" then
    (Except.ok (some (s.lru k)), s)
  else if m = "setLRU" then
    if k = "" then (Except.error (DispatchErr.typeError "setLRU_returned_undefined"), s)
    else
      (Except.ok (some (JsValue.str "OK")),
        { s with lru := memSet s.lru k ((dispatchValue v).getD JsValue.undefined) })
  else if m = "removeLRU" then
    (Except.ok (some (JsValue.str "OK")), { s with lru := memSet s.lru k JsValue.undefined })
  else if m = "mutex" then
    -- mutex(key[, value]) synchronously runs the promise branch of getLock
    -- (whose handleLockRequest may grant a queued waiter) and then awaits
    -- the never-resolving promise: no throw, no reply, the action never runs.
    (Except.ok none, { s with lock := handleLockRequest s.lock k })
  else if m = "handleLockRequest" then
    -- handleLockRequest(key) may grant a queued waiter and returns a promise
    -- resolving undefined, so .then fires and a reply carrying undefined is sent.
    (Except.ok (some JsValue.undefined), { s with lock := handleLockRequest s.lock k })
  else if m = "notifyListener" then
    -- notifyListener(key) delivers the current value of the key to its
    -- listeners and returns undefined; the .then call on undefined then
    -- raises a TypeError.
    (Except.error (DispatchErr.typeError "then_of_undefined"),
      { s with store := notifyListener s.store k })
  else if m = "setLRUOptions" then
    -- setLRUOptions(key) replaces __sharedLRUMemory__ with a fresh empty
    -- LRUCache and returns undefined; the .then call then raises a TypeError.
    (Except.error (DispatchErr.typeError "then_of_undefined"),
      { s with lru := fun _ => JsValue.undefined })
  else if m = "removeListener" then
    -- removeListener(key, value?): the presented listener is a protocol
    -- value, never one of the stored function closures, so indexOf yields
    -- -1 and nothing changes; returns undefined, then .then raises a TypeError.
    (Except.error (DispatchErr.typeError "then_of_undefined"), s)
  else if m = "logger" then
    -- logger(key[, value]) writes to the console (not modelled state) and
    -- returns undefined; the .then call then raises a TypeError.
    (Except.error (DispatchErr.typeError "then_of_undefined"), s)
  else if m = "handle" then
    -- handle(key, value?) reads .method of the string key (undefined) and
    -- calls this[undefined](...): synchronous TypeError, state untouched.
    (Except.error (DispatchErr.typeError m), s)
  else if m = "constructor" then
    -- a class constructor invoked without new: synchronous TypeError.
    (Except.error (DispatchErr.typeError m), s)
  else if m = "__sharedMemory__" ∨ m = "__sharedLRUMemory__" ∨ m = "defaultLRUOptions" then
    -- these properties are not functions: synchronous TypeError, state untouched.
    (Except.error (DispatchErr.typeError m), s)
  else
    -- this[data.method] is undefined and is called: synchronous TypeError;
    -- no reply, nothing logged or caught, state untouched.
    (Except.error (DispatchErr.typeError m), s)

/--
Claim C6 counterexample: at the concrete unknown operation name
frobnicate, Manager.handle does not drop the request and carry on — the
dispatch raises a TypeError (`this[data.method]` is undefined and is
called), so the handling is an error, not a logged no-op; nothing is sent
and the state is unchanged at the throw.
-/
theorem unknown_method_raises :
    handleDispatch initManager "frobnicate" "a" JsValue.undefined 0 =
      (Except.error (DispatchErr.typeError "frobnicate"), initManager) := by
  rfl

/--
Claim C6 (amended): a request whose method field names no property of the
Manager makes the dispatch raise a TypeError synchronously
(`this[data.method]` is undefined and is called): no reply is sent, the
error is not caught or logged by handle, and the store, lock table,
listeners and cache are unchanged at the point of the throw; the exception
then propagates out of the message handler.  (Method names that hit other
Manager properties behave differently and are modelled one by one in
handleDispatch: mutex hangs without replying, handleLockRequest sends a
reply, notifyListener and setLRUOptions mutate state before their
TypeError.)
-/
theorem unknown_method_throws (s : ManagerState) (m k : String) (v : JsValue)
    (w : Nat) (h : m ∉ managerProps) :
    handleDispatch s m k v w = (Except.error (DispatchErr.typeError m), s) := by
  simp only [managerProps, List.mem_cons, List.mem_singleton, not_or] at h
  obtain ⟨h1, h2, h3, h4, h5, h6, h7, h8, h9, h10, h11, h12, h13, h14, h15,
    h16, h17, h18, h19, h20⟩ := h
  simp [handleDispatch, h1, h2, h3, h4, h5, h6, h7, h8, h9, h10, h11, h12,
    h13, h14, h15, h16, h17, h18, h19, h20]

/-- Claim C6 witness: the amended behaviour at the concrete method name
blorp, which is no Manager property, on a fresh Manager. -/
theorem unknown_method_throws_witness :
    ("blorp" : String) ∉ managerProps ∧
    handleDispatch initManager "blorp" "k" (JsValue.num 7) 3 =
      (Except.error (DispatchErr.typeError "blorp"), initManager) :=
  ⟨by decide, unknown_method_throws initManager "blorp" "k" (JsValue.num 7) 3 (by decide)⟩

/--
Claim C9: Manager.handle includes the value in the handler call only when
it is truthy (`data.value ? [key, value] : [key]`), so for every falsy
value — 0, false, the empty string, null — a worker-issued set stores
undefined under the key instead of the sent value, and the same dropping
(`dispatchValue v = none`) applies to every value-carrying operation
dispatched through handle.
-/
theorem falsy_value_dropped (s : ManagerState) (k : String) (v : JsValue) (w : Nat)
    (hk : k ≠ "") (hv : truthy v = false) :
    dispatchValue v = none ∧
    (handleDispatch s "set" k v w).2.store.memory k = JsValue.undefined ∧
    (handleDispatch s "set" k v w).1 = Except.ok (some (JsValue.str "OK")) := by
  have hdv : dispatchValue v = none := by simp [dispatchValue, hv]
  refine ⟨hdv, ?_, ?_⟩
  · simp [handleDispatch, hk, hdv, setP, notifyListener, memSet]
  · simp [handleDispatch, hk]

/-- Claim C9 witness: a worker write of the falsy number 0 to key a stores
undefined, and the dispatched argument list dropped the value. -/
theorem falsy_value_dropped_witness :
    ("a" : String) ≠ "" ∧ truthy (JsValue.num 0) = false ∧
    dispatchValue (JsValue.num 0) = none ∧
    (handleDispatch initManager "set" "a" (JsValue.num 0) 0).2.store.memory "a" =
      JsValue.undefined :=
  ⟨by decide, by decide,
    (falsy_value_dropped initManager "a" (JsValue.num 0) 0 (by decide) (by decide)).1,
    (falsy_value_dropped initManager "a" (JsValue.num 0) 0 (by decide) (by decide)).2.1⟩
